import Mathlib

/-!
Verification development for the MedFusion-AI Evidence Retrieval & Adaptive
Refresh Engine (`Backend/RAG/`): a shallow embedding of the text-processing
pipeline (`clean_text`, `chunk_text`), the categorization pass, the FAISS
search post-processing, the refresh policy, and the build / refresh / answer
orchestration, together with theorems settling the specified properties.

Python machine strings are modelled as `List Char`; floating point distances
and similarities are modelled as rationals; fallible network calls are
modelled as `Except`-valued oracles; the external calls made by an operation
are recorded in an event trace.
-/

namespace MedFusion

/-! ## Python string primitives -/

/-- Lower-casing of a Python string, `str.lower` (modelled per character). -/
def pyLower (l : List Char) : List Char := l.map Char.toLower

/-- `leadsL pat l` is true when `pat` occurs at the very front of `l`. -/
def leadsL : List Char → List Char → Bool
  | [], _ => true
  | _ :: _, [] => false
  | p :: ps, c :: cs => p = c && leadsL ps cs

/-- `hasSubL pat l` models the Python containment test `pat in l`. -/
def hasSubL (pat : List Char) : List Char → Bool
  | [] => leadsL pat []
  | c :: rest => leadsL pat (c :: rest) || hasSubL pat rest

/-- Word accumulator for Python `str.split()` with no arguments: splits on
whitespace runs and never yields empty words.  `cur` holds the reversed
characters of the word being read. -/
def pyWordsAux : List Char → List Char → List (List Char)
  | cur, [] => if cur = [] then [] else [cur.reverse]
  | cur, c :: rest =>
    if c.isWhitespace then
      (if cur = [] then pyWordsAux [] rest else cur.reverse :: pyWordsAux [] rest)
    else pyWordsAux (c :: cur) rest

/-- The list of whitespace-delimited words of a text, Python `text.split()`. -/
def pyWords (l : List Char) : List (List Char) := pyWordsAux [] l

/-- Whitespace-delimited word count: `len(text.split())` in the source. -/
def wc (l : List Char) : Nat := (pyWords l).length

/-- Python `str.strip()`: drop leading and trailing whitespace. -/
def pyStrip (l : List Char) : List Char :=
  ((l.dropWhile Char.isWhitespace).reverse.dropWhile Char.isWhitespace).reverse

/-! ## `clean_text` (Backend/RAG/pubmed_fetch.py)

`re.sub(r"<[^>]+>", "", text)` followed by `re.sub(r"\s+", " ", ...)` and a
final `strip()`. -/

/-- Tag stripping, `re.sub` with pattern `<[^>]+>` replaced by the empty
string.  `buf = some mid` means we are inside a potential tag: `mid` holds
the (reversed) characters read after the opening `<`.  A `>` with a
non-empty middle closes and deletes the tag; a `>` right after `<` fails the
match, so both characters are kept; an unclosed `<` at end of input is kept
literally together with its buffered characters. -/
def stripTagsAux : Option (List Char) → List Char → List Char
  | none, [] => []
  | some mid, [] => '<' :: mid.reverse
  | none, c :: rest =>
    if c = '<' then stripTagsAux (some []) rest else c :: stripTagsAux none rest
  | some mid, c :: rest =>
    if c = '>' then
      if mid = [] then '<' :: '>' :: stripTagsAux none rest
      else stripTagsAux none rest
    else stripTagsAux (some (c :: mid)) rest

/-- Whitespace collapsing, `re.sub(r"\s+", " ", text)`: every maximal run of
whitespace becomes a single space.  `prevWs` records whether the previous
character was whitespace. -/
def collapseWsAux : Bool → List Char → List Char
  | _, [] => []
  | prevWs, c :: rest =>
    if c.isWhitespace then
      (if prevWs then collapseWsAux true rest else ' ' :: collapseWsAux true rest)
    else c :: collapseWsAux false rest

/-- `clean_text` from Backend/RAG/pubmed_fetch.py: strip markup tags,
collapse whitespace runs to single spaces, strip outer whitespace. -/
def clean_text (s : String) : String :=
  String.mk (pyStrip (collapseWsAux false (stripTagsAux none s.data)))

/-! ## Sentence splitting and `chunk_text` (Backend/RAG/pubmed_fetch.py)

`re.split(r"(?<=[.!?]) +", text)`: the text is split at every maximal run of
spaces that is immediately preceded by `.`, `!` or `?`; the spaces are
removed. -/

/-- Sentence-terminator characters of the split pattern's lookbehind. -/
def isTermChar (c : Char) : Bool := c = '.' || c = '!' || c = '?'

/-- Splitting engine.  `skipping` means we are inside a matched run of
spaces; `prev` is the character preceding the current position (used for the
lookbehind); `cur` holds the reversed characters of the current field. -/
def sentAux : Bool → Char → List Char → List Char → List (List Char)
  | _, _, cur, [] => [cur.reverse]
  | skipping, prev, cur, c :: rest =>
    if skipping then
      (if c = ' ' then sentAux true ' ' cur rest
       else sentAux false c (c :: cur) rest)
    else if isTermChar prev && c = ' ' then
      cur.reverse :: sentAux true ' ' [] rest
    else sentAux false c (c :: cur) rest

/-- `re.split(r"(?<=[.!?]) +", text)` on a character list.  The initial
`prev` is a space: position 0 has no preceding character, so no match can
start there, and a space is never a terminator. -/
def sentSplitL (l : List Char) : List (List Char) := sentAux false ' ' [] l

/-- The accumulation loop of `chunk_text`: `chunks` are the emitted chunks,
`chunk` is the growing current chunk (always given a trailing space by each
appended sentence), and the remaining argument is the sentence list.  The
final `if chunk:` keeps the trailing chunk whenever it is a non-empty
string. -/
def chunkLoop : Nat → List (List Char) → List Char → List (List Char) → List (List Char)
  | _, chunks, chunk, [] => if chunk ≠ [] then chunks ++ [pyStrip chunk] else chunks
  | mt, chunks, chunk, s :: rest =>
    if wc chunk + wc s ≤ mt then chunkLoop mt chunks (chunk ++ s ++ [' ']) rest
    else chunkLoop mt (chunks ++ [pyStrip chunk]) (s ++ [' ']) rest

/-- `chunk_text` from Backend/RAG/pubmed_fetch.py. -/
def chunk_text (text : String) (max_tokens : Nat) : List String :=
  (chunkLoop max_tokens [] [] (sentSplitL text.data)).map String.mk

/-! ## Data model (Backend/RAG/retriever.py, Backend/RAG/build_index.py)

A store record is a parsed `chunks.jsonl` line.  The build step writes
`{"pmid", "chunk_id", "text"}` records, the refresh path appends
`{"pmid", "text"}` records without a `chunk_id`, hence the optional field. -/

structure ChunkRec where
  pmid : String
  chunk_id : Option Nat
  text : String
deriving DecidableEq

/-- A fetched PubMed article, title and abstract (either may be empty). -/
structure Article where
  title : String
  abstract : String
deriving DecidableEq

/-- Failures raised by the external collaborators (network calls, index
file reads).  The source defines no dedicated exception classes; these tags
stand for the Python exceptions that the corresponding calls can raise. -/
inductive RErr where
  | fetchIdsFailure
  | fetchArticleFailure
  | bookshelfFailure
  | readIndexFailure
deriving DecidableEq

/-- An observable external action, recorded in an event trace. -/
inductive Event where
  | evSearch
  | evFetchIds (term : String) (maxResults : Nat)
  | evFetchArticle (pmid : String)
  | evIndexAdd (n : Nat)
  | evStoreAppend (n : Nat)
  | evBookshelf (term : String)
deriving DecidableEq

/-- True exactly on `evFetchIds` events (a call to the EvidenceFetcher's
search endpoint, the first action of a refresh). -/
def isFetchIdsEv : Event → Bool
  | .evFetchIds _ _ => true
  | _ => false

/-- True exactly on `evSearch` events (a local FAISS search). -/
def isSearchEv : Event → Bool
  | .evSearch => true
  | _ => false

/-- The external collaborators: the embedding model (`SentenceTransformer`),
the distance computed by the FAISS index, PubMed esearch/efetch and the
Bookshelf lookup.  `Vec` is the abstract embedding-vector type. -/
structure Oracles (Vec : Type) where
  embed : String → Vec
  dist : Vec → Vec → ℚ
  fetchIds : String → Nat → Except RErr (List String)
  fetchArticle : String → Except RErr Article
  bookshelf : String → Except RErr (Option String)

/-- The in-memory state of `PubMedRetriever`: the chunk store
(`self._chunks`) and the vectors held by the FAISS index (`self._index`),
in insertion order. -/
structure RState (Vec : Type) where
  chunks : List ChunkRec
  index : List Vec
deriving DecidableEq

/-- The bucketed result of `retrieve`. -/
structure Buckets where
  definition_support : List ChunkRec
  mechanism_support : List ChunkRec
  research_support : List ChunkRec
deriving DecidableEq

/-- `Except.isOk` as a plain boolean on our result values. -/
def exOk {ε α : Type} : Except ε α → Bool
  | .ok _ => true
  | .error _ => false

/-- Decidable equality of results, needed to evaluate concrete runs. -/
instance exceptDecEq {ε α : Type} [DecidableEq ε] [DecidableEq α] :
    DecidableEq (Except ε α)
  | .ok a, .ok b =>
    if h : a = b then .isTrue (by rw [h])
    else .isFalse (fun hh => by injection hh; contradiction)
  | .error a, .error b =>
    if h : a = b then .isTrue (by rw [h])
    else .isFalse (fun hh => by injection hh; contradiction)
  | .ok _, .error _ => .isFalse (fun hh => Except.noConfusion hh)
  | .error _, .ok _ => .isFalse (fun hh => Except.noConfusion hh)

/-! ## Query intent detection (Backend/RAG/retriever.py) -/

/-- The definitional-query markers of `is_definition_query`. -/
def defQueryKeywords : List String :=
  ["what is", "define", "definition", "meaning of", "explain"]

/-- `is_definition_query`: the lower-cased question contains a marker. -/
def is_definition_query (question : String) : Bool :=
  defQueryKeywords.any (fun k => hasSubL k.data (pyLower question.data))

/-- The mechanism-query markers of `is_mechanism_query`. -/
def mechQueryKeywords : List String :=
  ["how does", "pathophysiology", "mechanism", "what happens in"]

/-- `is_mechanism_query`: the lower-cased question contains a marker. -/
def is_mechanism_query (question : String) : Bool :=
  mechQueryKeywords.any (fun k => hasSubL k.data (pyLower question.data))

/-! ## Categorization (the loop of `PubMedRetriever.retrieve`) -/

/-- The definition markers tested against a record's lower-cased text. -/
def defMarkers : List String := ["is a", "refers to", "defined as"]

/-- The mechanism markers tested against a record's lower-cased text. -/
def mechMarkers : List String := ["pathophysiology", "mechanism", "airway inflammation"]

/-- A record's lower-cased text contains a definition marker. -/
def defB (r : ChunkRec) : Bool :=
  defMarkers.any (fun k => hasSubL k.data (pyLower r.text.data))

/-- A record's lower-cased text contains a mechanism marker. -/
def mechB (r : ChunkRec) : Bool :=
  mechMarkers.any (fun k => hasSubL k.data (pyLower r.text.data))

/-- The categorization loop of `retrieve`: first-match if/elif/else on each
record in search order, appending to one of the three bucket lists. -/
def categorizeRecs : List ChunkRec → List ChunkRec × List ChunkRec × List ChunkRec
  | [] => ([], [], [])
  | r :: rest =>
    let (d, m, s) := categorizeRecs rest
    if defB r then (r :: d, m, s)
    else if mechB r then (d, r :: m, s)
    else (d, m, r :: s)

/-- The dictionary returned by `retrieve`: categorize the records of the
search results, then slice each bucket with `[:2]`. -/
def bucketsOf (results : List (ChunkRec × ℚ)) : Buckets :=
  let (d, m, s) := categorizeRecs (results.map Prod.fst)
  ⟨d.take 2, m.take 2, s.take 2⟩

/-! ## FAISS search model (`PubMedRetriever._search`)

`faiss.IndexFlatL2.search(q, k)` returns exactly `k` (distance, index)
pairs, the stored vectors sorted by ascending distance, padded with
index `-1` (and a huge distance) when fewer than `k` vectors are stored. -/

/-- Insert a (distance, index) pair into a distance-sorted list. -/
def insertByDist (p : ℚ × Int) : List (ℚ × Int) → List (ℚ × Int)
  | [] => [p]
  | q :: rest => if p.1 ≤ q.1 then p :: q :: rest else q :: insertByDist p rest

/-- Sort (distance, index) pairs by ascending distance. -/
def sortByDist : List (ℚ × Int) → List (ℚ × Int)
  | [] => []
  | p :: rest => insertByDist p (sortByDist rest)

/-- The padding entry FAISS emits for missing neighbors: index `-1` and the
float32 maximum as distance. -/
def padEntry : ℚ × Int := ((340282350000000000000000000000000000000 : ℚ), -1)

/-- The raw `(D, I)` rows of `self._index.search(q_emb, top_k)`. -/
def faissSearch {Vec : Type} (dist : Vec → Vec → ℚ) (index : List Vec)
    (q : Vec) (k : Nat) : List (ℚ × Int) :=
  let pairs := (index.enum).map (fun p => (dist q p.2, (p.1 : Int)))
  let sorted := sortByDist pairs
  sorted.take k ++ List.replicate (k - sorted.length) padEntry

/-- The result loop of `_search`: keep a `(dist, idx)` pair only when
`0 <= idx < len(self._chunks)`, returning `(self._chunks[idx], dist)`. -/
def searchPost (chunks : List ChunkRec) : List (ℚ × Int) → List (ChunkRec × ℚ)
  | [] => []
  | (d, i) :: rest =>
    match (if 0 ≤ i then chunks[i.toNat]? else none) with
    | some r => (r, d) :: searchPost chunks rest
    | none => searchPost chunks rest

/-- `PubMedRetriever._search`: embed the query, run the FAISS search, and
filter out-of-range neighbor indices. -/
def searchLocal {Vec : Type} (O : Oracles Vec) (st : RState Vec)
    (q : String) (k : Nat) : List (ChunkRec × ℚ) :=
  searchPost st.chunks (faissSearch O.dist st.index (O.embed q) k)

/-! ## Refresh policy (`PubMedRetriever._needs_refresh`) -/

/-- `sum(1 - d for _, d in results) / len(results)` (0 on the empty list,
which the caller never evaluates thanks to the emptiness guard). -/
def meanSim (results : List (ChunkRec × ℚ)) : ℚ :=
  ((results.map (fun p => 1 - p.2)).sum) / results.length

/-- `_needs_refresh` with its default threshold `0.35`. -/
def needs_refresh (results : List (ChunkRec × ℚ)) : Bool :=
  results.isEmpty || decide (meanSim results < 7 / 20)

/-! ## Refresh ingestion (`PubMedRetriever._fetch_and_store`) -/

/-- The records derived from one fetched article in `_fetch_and_store`:
clean `f"{title}. {abstract}"`, chunk with `max_tokens=384`, one record per
chunk (no `chunk_id`). -/
def articleChunks (pmid : String) (art : Article) : List ChunkRec :=
  (chunk_text (clean_text (art.title ++ ". " ++ art.abstract)) 384).map
    (fun ch => ⟨pmid, none, ch⟩)

/-- The pmid loop of `_fetch_and_store`.  There is no try/except here: a
failing `fetch_pubmed_article` aborts the whole loop and the error
propagates.  The trace records each fetch call that was issued. -/
def collectRecords {Vec : Type} (O : Oracles Vec) :
    List String → Except RErr (List ChunkRec) × List Event
  | [] => (.ok [], [])
  | pmid :: rest =>
    match O.fetchArticle pmid with
    | .error e => (.error e, [.evFetchArticle pmid])
    | .ok art =>
      let (res, tr) := collectRecords O rest
      (res.map (fun l => articleChunks pmid art ++ l), .evFetchArticle pmid :: tr)

/-- `PubMedRetriever._fetch_and_store` with its default `max_results=3`:
fetch ids, fetch each article, and when any records were produced, add their
vectors to the index and the records to the store in the same order within
the same call. -/
def fetch_and_store {Vec : Type} (O : Oracles Vec) (q : String)
    (st : RState Vec) : Except RErr (RState Vec) × List Event :=
  match O.fetchIds q 3 with
  | .error e => (.error e, [.evFetchIds q 3])
  | .ok pmids =>
    let (recsE, tr) := collectRecords O pmids
    match recsE with
    | .error e => (.error e, .evFetchIds q 3 :: tr)
    | .ok newRecs =>
      if newRecs = [] then (.ok st, .evFetchIds q 3 :: tr)
      else
        let vecs := newRecs.map (fun r => O.embed r.text)
        (.ok ⟨st.chunks ++ newRecs, st.index ++ vecs⟩,
         .evFetchIds q 3 :: tr ++ [.evIndexAdd vecs.length, .evStoreAppend newRecs.length])

/-! ## `PubMedRetriever.retrieve` -/

/-- `retrieve`: search, refresh once when the evidence is weak, re-search
only after a refresh, then categorize and cap the buckets. -/
def retrieve {Vec : Type} (O : Oracles Vec) (q : String) (top_k : Nat)
    (st : RState Vec) : Except RErr (Buckets × RState Vec) × List Event :=
  let results := searchLocal O st q top_k
  if needs_refresh results then
    match fetch_and_store O q st with
    | (.error e, tr) => (.error e, .evSearch :: tr)
    | (.ok st', tr) =>
      (.ok (bucketsOf (searchLocal O st' q top_k), st'), .evSearch :: tr ++ [.evSearch])
  else (.ok (bucketsOf results, st), [.evSearch])

/-! ## Construction and readiness (`PubMedRetriever.__init__`, `is_ready`) -/

/-- `__init__`: `faiss.read_index` raises when the index file is absent
(`indexFile = none`); the `chunks.jsonl` lines are parsed one by one and
malformed lines (`none`) are skipped by the try/except. -/
def initRetriever (Vec : Type) (indexFile : Option (List Vec))
    (lines : List (Option ChunkRec)) : Except RErr (RState Vec) :=
  match indexFile with
  | none => .error .readIndexFailure
  | some ix => .ok ⟨lines.filterMap id, ix⟩

/-- `is_ready`: `self._index is not None and len(self._chunks) > 0`.  After
a successful construction the index is never `None`, so only the store
length matters. -/
def is_ready {Vec : Type} (st : RState Vec) : Bool :=
  decide (0 < st.chunks.length)

/-! ## Build pipeline (`build_pubmed_index`, Backend/RAG/build_index.py) -/

/-- The records derived from one fetched article in `build_pubmed_index`:
like the refresh path, but each chunk is numbered with `chunk_id`. -/
def buildArticleChunks (pmid : String) (art : Article) : List ChunkRec :=
  ((chunk_text (clean_text (art.title ++ ". " ++ art.abstract)) 384).enum).map
    (fun p => ⟨pmid, some p.1, p.2⟩)

/-- The pmid loop of `build_pubmed_index`.  Unlike the refresh path, this
loop wraps each article fetch in try/except: a failing fetch is skipped and
the build continues with the remaining pmids. -/
def buildCollect {Vec : Type} (O : Oracles Vec) :
    List String → List ChunkRec × List Event
  | [] => ([], [])
  | pmid :: rest =>
    let (rs, tr) := buildCollect O rest
    match O.fetchArticle pmid with
    | .error _ => (rs, .evFetchArticle pmid :: tr)
    | .ok art => (buildArticleChunks pmid art ++ rs, .evFetchArticle pmid :: tr)

/-- `build_pubmed_index`: fetch pmids (failures here do propagate), collect
chunk records skipping failed fetches, and when any chunks were produced,
embed them all and build the index over them in the same order; `none`
models the early return when no chunks were produced. -/
def build_pubmed_index {Vec : Type} (O : Oracles Vec) (term : String)
    (max_results : Nat) : Except RErr (Option (RState Vec)) × List Event :=
  match O.fetchIds term max_results with
  | .error e => (.error e, [.evFetchIds term max_results])
  | .ok pmids =>
    let (recs, tr) := buildCollect O pmids
    if recs = [] then (.ok none, .evFetchIds term max_results :: tr)
    else
      (.ok (some ⟨recs, recs.map (fun r => O.embed r.text)⟩),
       .evFetchIds term max_results :: tr)

/-! ## Public API (`answer_pubmed_question`) -/

/-- The value returned by `answer_pubmed_question`: either the not-ready
warning string or the structured evidence dictionary. -/
inductive AnswerOut where
  | warning (msg : String)
  | answer (contexts : List ChunkRec) (pmids : List String) (bookshelf : Option String)
deriving DecidableEq

/-- The literal not-ready warning string of `answer_pubmed_question`. -/
def warnMsg : String := "⚠️ PubMed index not found. Please build index first."

/-- `list(dict.fromkeys(...))`: deduplicate keeping first occurrences. -/
def dedupAux (seen : List String) : List String → List String
  | [] => []
  | x :: rest =>
    if x ∈ seen then dedupAux seen rest else x :: dedupAux (x :: seen) rest

/-- The flattened evidence list of `answer_pubmed_question`. -/
def ctxOf (b : Buckets) : List ChunkRec :=
  b.definition_support ++ b.mechanism_support ++ b.research_support

/-- `answer_pubmed_question`: return the warning when the retriever is not
ready; otherwise retrieve (errors propagate), then — only for definitional
queries — call the Bookshelf lookup, whose errors also propagate. -/
def answer_pubmed_question {Vec : Type} (O : Oracles Vec) (st : RState Vec)
    (q : String) (top_k : Nat) : Except RErr (AnswerOut × RState Vec) × List Event :=
  if is_ready st = false then (.ok (.warning warnMsg, st), [])
  else
    match retrieve O q top_k st with
    | (.error e, tr) => (.error e, tr)
    | (.ok (b, st'), tr) =>
      if is_definition_query q then
        match O.bookshelf q with
        | .error e => (.error e, tr ++ [.evBookshelf q])
        | .ok bs =>
          (.ok (.answer (ctxOf b) (dedupAux [] ((ctxOf b).map ChunkRec.pmid)) bs, st'),
           tr ++ [.evBookshelf q])
      else
        (.ok (.answer (ctxOf b) (dedupAux [] ((ctxOf b).map ChunkRec.pmid)) none, st'),
         tr)

/-! ## Block-level view of the chunking loop

`blockLoop` mirrors `chunkLoop` one level up: instead of a growing chunk
string it tracks the list of whole sentences the current chunk is made of.
It is the bridge for proving that chunking never splits a sentence. -/

/-- The chunk string assembled from a block of sentences: each sentence
followed by the single space `chunk += sentence + " "` adds. -/
def joinSp (b : List (List Char)) : List Char := (b.map (fun s => s ++ [' '])).flatten

/-- `chunkLoop`, with chunks replaced by the blocks of sentences they are
assembled from. -/
def blockLoop : Nat → List (List (List Char)) → List (List Char) → List (List Char) →
    List (List (List Char))
  | _, acc, cur, [] => if joinSp cur ≠ [] then acc ++ [cur] else acc
  | mt, acc, cur, s :: rest =>
    if wc (joinSp cur) + wc s ≤ mt then blockLoop mt acc (cur ++ [s]) rest
    else blockLoop mt (acc ++ [cur]) [s] rest

/-- True exactly on `evBookshelf` events (a DefinitionLookup request). -/
def isBookshelfEv : Event → Bool
  | .evBookshelf _ => true
  | _ => false

/-! ## Concrete oracles for witnesses and counterexamples -/

/-- Collaborators that always succeed: one pmid, a fixed small article, an
absent Bookshelf passage, zero distances. -/
def oracleHappy : Oracles Nat :=
  ⟨fun s => s.length, fun _ _ => 0,
   fun _ _ => .ok ["1"],
   fun _ => .ok ⟨"T", "A"⟩,
   fun _ => .ok none⟩

/-- Collaborators whose per-article fetch always fails. -/
def oracleFetchFail : Oracles Nat :=
  ⟨fun s => s.length, fun _ _ => 0,
   fun _ _ => .ok ["9"],
   fun _ => .error .fetchArticleFailure,
   fun _ => .ok none⟩

/-- Collaborators whose searches find no documents at all. -/
def oracleNoDocs : Oracles Nat :=
  ⟨fun s => s.length, fun _ _ => 0,
   fun _ _ => .ok [],
   fun _ => .ok ⟨"", ""⟩,
   fun _ => .ok none⟩

/-- Collaborators whose Bookshelf lookup raises. -/
def oracleBookshelfFail : Oracles Nat :=
  ⟨fun s => s.length, fun _ _ => 0,
   fun _ _ => .ok [],
   fun _ => .ok ⟨"", ""⟩,
   fun _ => .error .bookshelfFailure⟩

/-- A one-record ready state; with `oracleBookshelfFail`'s zero distances
its mean similarity is 1, so no refresh triggers on it. -/
def stOneRec : RState Nat := ⟨[⟨"7", none, "background text"⟩], [0]⟩

/-! # Theorems -/

/-- The categorization loop is the triple of first-match filters: definition
markers win, then mechanism markers, then the research fallback. -/
theorem categorizeRecs_eq (recs : List ChunkRec) :
    categorizeRecs recs =
      (recs.filter defB,
       recs.filter (fun r => !defB r && mechB r),
       recs.filter (fun r => !defB r && !mechB r)) := by
  induction recs with
  | nil => rfl
  | cons r rest ih =>
    simp only [categorizeRecs, ih, List.filter_cons]
    by_cases hd : defB r <;> by_cases hm : mechB r <;> simp [hd, hm]

/-- C4: categorization is deterministic first-match by priority on the
lower-cased text: the three buckets are exactly the filters "has a
definition marker", "no definition marker but a mechanism marker", and
"neither"; consequently a record matching both definition and mechanism
markers lands in the definition bucket and in no other. -/
theorem C4_categorization_priority :
    (∀ recs : List ChunkRec,
       categorizeRecs recs =
         (recs.filter defB,
          recs.filter (fun r => !defB r && mechB r),
          recs.filter (fun r => !defB r && !mechB r))) ∧
    (∀ (recs : List ChunkRec) (r : ChunkRec), r ∈ recs → defB r = true → mechB r = true →
       r ∈ (categorizeRecs recs).1 ∧ r ∉ (categorizeRecs recs).2.1 ∧
         r ∉ (categorizeRecs recs).2.2) := by
  refine ⟨categorizeRecs_eq, ?_⟩
  intro recs r hr hd hm
  rw [categorizeRecs_eq]
  refine ⟨List.mem_filter.mpr ⟨hr, hd⟩, ?_, ?_⟩
  · intro hmem
    have := (List.mem_filter.mp hmem).2
    simp [hd] at this
  · intro hmem
    have := (List.mem_filter.mp hmem).2
    simp [hd] at this

/-- Witness for C4: a record containing both "is defined as" and
"mechanism" is categorized as definitional and appears in no other list. -/
theorem C4_categorization_priority_witness :
    (⟨"1", none, "Asthma is defined as a disease. The mechanism is airway inflammation."⟩ : ChunkRec) ∈
      (categorizeRecs [⟨"1", none, "Asthma is defined as a disease. The mechanism is airway inflammation."⟩]).1 ∧
    (⟨"1", none, "Asthma is defined as a disease. The mechanism is airway inflammation."⟩ : ChunkRec) ∉
      (categorizeRecs [⟨"1", none, "Asthma is defined as a disease. The mechanism is airway inflammation."⟩]).2.1 ∧
    (⟨"1", none, "Asthma is defined as a disease. The mechanism is airway inflammation."⟩ : ChunkRec) ∉
      (categorizeRecs [⟨"1", none, "Asthma is defined as a disease. The mechanism is airway inflammation."⟩]).2.2 :=
  C4_categorization_priority.2 _ _ (by decide) (by decide) (by decide)

/-- C5: every bucket returned by a `retrieve` call holds at most 2 records;
the buckets are the (mutually exclusive) categorization filters truncated to
the cap after categorization, each an order-preserving sublist of the
search-ranked record sequence; no record belongs to two buckets; and every
successful `retrieve` output is of this shape. -/
theorem C5_bucket_caps :
    (∀ results : List (ChunkRec × ℚ),
       (bucketsOf results).definition_support.length ≤ 2 ∧
       (bucketsOf results).mechanism_support.length ≤ 2 ∧
       (bucketsOf results).research_support.length ≤ 2 ∧
       (bucketsOf results).definition_support
           = ((results.map Prod.fst).filter defB).take 2 ∧
       (bucketsOf results).mechanism_support
           = ((results.map Prod.fst).filter (fun r => !defB r && mechB r)).take 2 ∧
       (bucketsOf results).research_support
           = ((results.map Prod.fst).filter (fun r => !defB r && !mechB r)).take 2 ∧
       (bucketsOf results).definition_support.Sublist (results.map Prod.fst) ∧
       (bucketsOf results).mechanism_support.Sublist (results.map Prod.fst) ∧
       (bucketsOf results).research_support.Sublist (results.map Prod.fst) ∧
       (∀ r : ChunkRec,
         ¬(r ∈ (bucketsOf results).definition_support ∧
            r ∈ (bucketsOf results).mechanism_support) ∧
         ¬(r ∈ (bucketsOf results).definition_support ∧
            r ∈ (bucketsOf results).research_support) ∧
         ¬(r ∈ (bucketsOf results).mechanism_support ∧
            r ∈ (bucketsOf results).research_support))) ∧
    (∀ (Vec : Type) (O : Oracles Vec) (q : String) (k : Nat) (st st' : RState Vec)
       (b : Buckets) (tr : List Event),
       retrieve O q k st = (.ok (b, st'), tr) →
       ∃ results : List (ChunkRec × ℚ), b = bucketsOf results) := by
  constructor
  · intro results
    have hd : (bucketsOf results).definition_support
        = ((results.map Prod.fst).filter defB).take 2 := by
      simp [bucketsOf, categorizeRecs_eq]
    have hm : (bucketsOf results).mechanism_support
        = ((results.map Prod.fst).filter (fun r => !defB r && mechB r)).take 2 := by
      simp [bucketsOf, categorizeRecs_eq]
    have hs : (bucketsOf results).research_support
        = ((results.map Prod.fst).filter (fun r => !defB r && !mechB r)).take 2 := by
      simp [bucketsOf, categorizeRecs_eq]
    rw [hd, hm, hs]
    have memD : ∀ r : ChunkRec,
        r ∈ ((results.map Prod.fst).filter defB).take 2 → defB r = true :=
      fun r h => (List.mem_filter.mp (List.take_subset _ _ h)).2
    have memM : ∀ r : ChunkRec,
        r ∈ ((results.map Prod.fst).filter (fun x => !defB x && mechB x)).take 2 →
        (!defB r && mechB r) = true :=
      fun r h => (List.mem_filter.mp (List.take_subset _ _ h)).2
    have memS : ∀ r : ChunkRec,
        r ∈ ((results.map Prod.fst).filter (fun x => !defB x && !mechB x)).take 2 →
        (!defB r && !mechB r) = true :=
      fun r h => (List.mem_filter.mp (List.take_subset _ _ h)).2
    refine ⟨List.length_take_le .., List.length_take_le .., List.length_take_le ..,
      rfl, rfl, rfl,
      ((List.take_sublist _ _).trans (List.filter_sublist _)),
      ((List.take_sublist _ _).trans (List.filter_sublist _)),
      ((List.take_sublist _ _).trans (List.filter_sublist _)), ?_⟩
    intro r
    refine ⟨fun ⟨h1, h2⟩ => ?_, fun ⟨h1, h2⟩ => ?_, fun ⟨h1, h2⟩ => ?_⟩
    · have := memM r h2; simp [memD r h1] at this
    · have := memS r h2; simp [memD r h1] at this
    · have hm2 := memM r h1; have hs2 := memS r h2
      simp only [Bool.and_eq_true] at hm2 hs2
      simp [hm2.2] at hs2
  · intro Vec O q k st st' b tr h
    simp only [retrieve] at h
    split at h
    · split at h
      · simp at h
      · cases h
        exact ⟨_, rfl⟩
    · cases h
      exact ⟨_, rfl⟩

/-- Witness for C5: the buckets returned by a concrete successful
`retrieve` call are an instance of `bucketsOf`. -/
theorem C5_bucket_caps_witness :
    ∃ results : List (ChunkRec × ℚ),
      (⟨[], [], [⟨"7", none, "background text"⟩]⟩ : Buckets) = bucketsOf results :=
  C5_bucket_caps.2 Nat oracleHappy "q" 6 stOneRec stOneRec
    ⟨[], [], [⟨"7", none, "background text"⟩]⟩ [.evSearch] (by with_unfolding_all rfl)

/-- `insertByDist` grows the list by one. -/
theorem insertByDist_length (p : ℚ × Int) :
    ∀ l : List (ℚ × Int), (insertByDist p l).length = l.length + 1 := by
  intro l
  induction l with
  | nil => rfl
  | cons q rest ih =>
    simp only [insertByDist]
    split <;> simp [ih]

/-- `sortByDist` preserves length. -/
theorem sortByDist_length :
    ∀ l : List (ℚ × Int), (sortByDist l).length = l.length := by
  intro l
  induction l with
  | nil => rfl
  | cons p rest ih => simp [sortByDist, insertByDist_length, ih]

/-- The raw FAISS output always has exactly `k` rows. -/
theorem faissSearch_length {Vec : Type} (dist : Vec → Vec → ℚ)
    (index : List Vec) (q : Vec) (k : Nat) :
    (faissSearch dist index q k).length = k := by
  simp only [faissSearch, List.length_append, List.length_take, List.length_replicate,
    sortByDist_length, List.length_map, List.enum_length]
  omega

/-- The filtering loop of `_search` never returns more pairs than FAISS
reported. -/
theorem searchPost_length (chunks : List ChunkRec) :
    ∀ raw : List (ℚ × Int), (searchPost chunks raw).length ≤ raw.length := by
  intro raw
  induction raw with
  | nil => simp [searchPost]
  | cons p rest ih =>
    obtain ⟨d, i⟩ := p
    simp only [searchPost]
    split
    · simpa using Nat.succ_le_succ ih
    · exact ih.trans (Nat.le_succ _)

/-- Every record returned by the filtering loop of `_search` is an element
of the chunk store. -/
theorem searchPost_mem (chunks : List ChunkRec) :
    ∀ (raw : List (ℚ × Int)) (r : ChunkRec) (d : ℚ),
      (r, d) ∈ searchPost chunks raw → r ∈ chunks := by
  intro raw
  induction raw with
  | nil => simp [searchPost]
  | cons p rest ih =>
    obtain ⟨d0, i⟩ := p
    intro r d h
    simp only [searchPost] at h
    split at h
    · rcases List.mem_cons.mp h with heq | hrest
      · obtain ⟨hr, _⟩ := Prod.mk.injEq .. ▸ heq
        subst hr
        rename_i r' hmatch
        split at hmatch
        · exact List.getElem?_mem hmatch
        · exact absurd hmatch (by simp)
      · exact ih r d hrest
    · exact ih r d h

/-- FAISS on an empty index returns only `-1`-padded rows. -/
theorem faissSearch_nil {Vec : Type} (dist : Vec → Vec → ℚ) (q : Vec) (k : Nat) :
    faissSearch dist [] q k = List.replicate k padEntry := by
  simp [faissSearch, sortByDist]

/-- The padding rows are all filtered out. -/
theorem searchPost_replicate_pad (chunks : List ChunkRec) (n : Nat) :
    searchPost chunks (List.replicate n padEntry) = [] := by
  induction n with
  | zero => rfl
  | succ m ih =>
    rw [List.replicate_succ]
    simp only [searchPost, padEntry]
    rw [if_neg (by decide)]
    exact ih

/-- A record of any bucket comes from the search results the buckets were
built from. -/
theorem bucketsOf_mem (results : List (ChunkRec × ℚ)) (r : ChunkRec)
    (h : r ∈ ctxOf (bucketsOf results)) : ∃ d : ℚ, (r, d) ∈ results := by
  have hmap : r ∈ results.map Prod.fst := by
    have hd : (bucketsOf results).definition_support
        = ((results.map Prod.fst).filter defB).take 2 := by
      simp [bucketsOf, categorizeRecs_eq]
    have hm : (bucketsOf results).mechanism_support
        = ((results.map Prod.fst).filter (fun x => !defB x && mechB x)).take 2 := by
      simp [bucketsOf, categorizeRecs_eq]
    have hs : (bucketsOf results).research_support
        = ((results.map Prod.fst).filter (fun x => !defB x && !mechB x)).take 2 := by
      simp [bucketsOf, categorizeRecs_eq]
    rcases List.mem_append.mp h with h1 | h2
    · rcases List.mem_append.mp h1 with ha | hb
      · exact List.mem_of_mem_filter (List.take_subset _ _ (hd ▸ ha))
      · exact List.mem_of_mem_filter (List.take_subset _ _ (hm ▸ hb))
    · exact List.mem_of_mem_filter (List.take_subset _ _ (hs ▸ h2))
  obtain ⟨p, hp, hpr⟩ := List.mem_map.mp hmap
  exact ⟨p.2, by rw [← hpr]; exact hp⟩

/-- C10: the search layer is safe: the `_search` filtering loop returns at
most as many pairs as FAISS reported and only records of the store
(out-of-range neighbor indices, including `-1` padding, are dropped, never
used to index the store); `_search` returns at most `top_k` results and the
empty list on an index with no vectors; and every record in any bucket
returned by a successful `retrieve` is a chunk of the (final) store. -/
theorem C10_search_safety :
    (∀ (chunks : List ChunkRec) (raw : List (ℚ × Int)),
        (searchPost chunks raw).length ≤ raw.length ∧
        ∀ (r : ChunkRec) (d : ℚ), (r, d) ∈ searchPost chunks raw → r ∈ chunks) ∧
    (∀ (Vec : Type) (O : Oracles Vec) (st : RState Vec) (q : String) (k : Nat),
        (searchLocal O st q k).length ≤ k ∧
        (∀ (r : ChunkRec) (d : ℚ), (r, d) ∈ searchLocal O st q k → r ∈ st.chunks) ∧
        (st.index = [] → searchLocal O st q k = [])) ∧
    (∀ (Vec : Type) (O : Oracles Vec) (q : String) (k : Nat) (st st' : RState Vec)
        (b : Buckets) (tr : List Event),
        retrieve O q k st = (.ok (b, st'), tr) →
        ∀ r ∈ ctxOf b, r ∈ st'.chunks) := by
  refine ⟨fun chunks raw => ⟨searchPost_length chunks raw, searchPost_mem chunks raw⟩,
    ?_, ?_⟩
  · intro Vec O st q k
    refine ⟨?_, fun r d h => searchPost_mem _ _ r d h, ?_⟩
    · calc (searchLocal O st q k).length
          ≤ (faissSearch O.dist st.index (O.embed q) k).length :=
            searchPost_length _ _
        _ = k := faissSearch_length ..
    · intro hnil
      simp only [searchLocal, hnil, faissSearch_nil]
      exact searchPost_replicate_pad ..
  · intro Vec O q k st st' b tr h r hr
    simp only [retrieve] at h
    split at h
    · split at h
      · simp at h
      · cases h
        obtain ⟨d, hd⟩ := bucketsOf_mem _ r hr
        exact searchPost_mem _ _ r d hd
    · cases h
      obtain ⟨d, hd⟩ := bucketsOf_mem _ r hr
      exact searchPost_mem _ _ r d hd

/-- Witness for C10: a concrete successful `retrieve` whose only returned
record is in the final store. -/
theorem C10_search_safety_witness :
    (⟨"7", none, "background text"⟩ : ChunkRec) ∈ stOneRec.chunks :=
  C10_search_safety.2.2 Nat oracleHappy "q" 6 stOneRec stOneRec
    ⟨[], [], [⟨"7", none, "background text"⟩]⟩ [.evSearch] (by with_unfolding_all rfl)
    ⟨"7", none, "background text"⟩ (by decide)

/-- The refresh trigger, unfolded: empty result set or mean similarity
strictly below the 0.35 threshold. -/
theorem needs_refresh_iff (results : List (ChunkRec × ℚ)) :
    needs_refresh results = true ↔ (results = [] ∨ meanSim results < 7 / 20) := by
  simp [needs_refresh, List.isEmpty_iff, Bool.or_eq_true, decide_eq_true_eq]

/-- When every article fetch succeeds, the pmid loop of `_fetch_and_store`
succeeds and its trace consists of article-fetch events only. -/
theorem collectRecords_events {Vec : Type} (O : Oracles Vec)
    (hArt : ∀ p, exOk (O.fetchArticle p) = true) :
    ∀ pmids : List String,
      exOk (collectRecords O pmids).1 = true ∧
      ∀ e ∈ (collectRecords O pmids).2, ∃ p, e = Event.evFetchArticle p := by
  intro pmids
  induction pmids with
  | nil => exact ⟨rfl, by simp [collectRecords]⟩
  | cons pmid rest ih =>
    simp only [collectRecords]
    cases hart : O.fetchArticle pmid with
    | error e =>
      have := hArt pmid
      rw [hart] at this
      simp [exOk] at this
    | ok art =>
      constructor
      · cases hres : (collectRecords O rest).1 with
        | error e => rw [hres] at ih; simp [exOk] at ih
        | ok l => simp [hres, exOk, Except.map]
      · intro e he
        simp only [List.mem_cons] at he
        rcases he with rfl | he
        · exact ⟨pmid, rfl⟩
        · exact ih.2 e he

/-- When both EvidenceFetcher endpoints succeed, `_fetch_and_store`
succeeds, issues exactly one EvidenceFetcher search — with the raw query
text and `max_results=3` — as its first action, and performs no further
search, fetch-ids or bookshelf actions. -/
theorem fetch_and_store_shape {Vec : Type} (O : Oracles Vec) (q : String)
    (st : RState Vec)
    (hIds : ∀ t n, exOk (O.fetchIds t n) = true)
    (hArt : ∀ p, exOk (O.fetchArticle p) = true) :
    ∃ (st' : RState Vec) (tr' : List Event),
      fetch_and_store O q st = (.ok st', .evFetchIds q 3 :: tr') ∧
      ∀ e ∈ tr', isFetchIdsEv e = false ∧ isSearchEv e = false ∧
        isBookshelfEv e = false := by
  cases hids : O.fetchIds q 3 with
  | error e =>
    have := hIds q 3
    rw [hids] at this
    simp [exOk] at this
  | ok pmids =>
    obtain ⟨hok, hev⟩ := collectRecords_events O hArt pmids
    rcases hco : collectRecords O pmids with ⟨recsE, tr⟩
    rw [hco] at hok hev
    simp only at hok hev
    cases recsE with
    | error e => simp [exOk] at hok
    | ok newRecs =>
      have hevents : ∀ e ∈ tr, isFetchIdsEv e = false ∧ isSearchEv e = false ∧
          isBookshelfEv e = false := by
        intro e he
        obtain ⟨p, rfl⟩ := hev e he
        exact ⟨rfl, rfl, rfl⟩
      by_cases hnil : newRecs = []
      · refine ⟨st, tr, ?_, hevents⟩
        simp [fetch_and_store, hids, hco, hnil]
      · refine ⟨⟨st.chunks ++ newRecs, st.index ++ newRecs.map (fun r => O.embed r.text)⟩,
          tr ++ [.evIndexAdd (newRecs.map (fun r => O.embed r.text)).length,
                 .evStoreAppend newRecs.length], ?_, ?_⟩
        · simp [fetch_and_store, hids, hco, hnil]
        · intro e he
          rcases List.mem_append.mp he with h1 | h2
          · exact hevents e h1
          · simp only [List.mem_cons, List.not_mem_nil, or_false] at h2
            rcases h2 with rfl | rfl <;> exact ⟨rfl, rfl, rfl⟩

/-- C2: a refresh — one EvidenceFetcher search with the raw query text and
`max_results=3`, followed by ingestion — is triggered iff the initial result
set is empty or its mean similarity is strictly below 0.35; at most one
refresh happens per `retrieve` call, and the local search is re-run exactly
when a refresh occurred (given collaborators that do not fail). -/
theorem C2_refresh_policy :
    ∀ (Vec : Type) (O : Oracles Vec) (q : String) (k : Nat) (st : RState Vec),
      (∀ t n, exOk (O.fetchIds t n) = true) →
      (∀ p, exOk (O.fetchArticle p) = true) →
      ((retrieve O q k st).2.countP isFetchIdsEv
          = if searchLocal O st q k = [] ∨ meanSim (searchLocal O st q k) < 7 / 20
            then 1 else 0) ∧
      ((retrieve O q k st).2.countP (fun e => decide (e = .evFetchIds q 3))
          = (retrieve O q k st).2.countP isFetchIdsEv) ∧
      (retrieve O q k st).2.countP isFetchIdsEv ≤ 1 ∧
      ((retrieve O q k st).2.countP isSearchEv
          = 1 + (retrieve O q k st).2.countP isFetchIdsEv) ∧
      exOk (retrieve O q k st).1 = true := by
  intro Vec O q k st hIds hArt
  by_cases hn : needs_refresh (searchLocal O st q k) = true
  · obtain ⟨st', tr', hfs, hev⟩ := fetch_and_store_shape O q st hIds hArt
    have hr : retrieve O q k st
        = (.ok (bucketsOf (searchLocal O st' q k), st'),
           .evSearch :: (.evFetchIds q 3 :: tr') ++ [.evSearch]) := by
      simp [retrieve, hn, hfs]
    have hz1 : tr'.countP isFetchIdsEv = 0 :=
      List.countP_eq_zero.mpr (fun e he => by simp [(hev e he).1])
    have hz2 : tr'.countP isSearchEv = 0 :=
      List.countP_eq_zero.mpr (fun e he => by simp [(hev e he).2.1])
    have hz3 : tr'.countP (fun e => decide (e = .evFetchIds q 3)) = 0 :=
      List.countP_eq_zero.mpr (fun e he => by
        have := (hev e he).1
        intro hcontra
        simp only [decide_eq_true_eq] at hcontra
        rw [hcontra] at this
        simp [isFetchIdsEv] at this)
    have hcond : searchLocal O st q k = [] ∨ meanSim (searchLocal O st q k) < 7 / 20 :=
      (needs_refresh_iff _).mp hn
    rw [hr, if_pos hcond]
    refine ⟨?_, ?_, ?_, ?_, rfl⟩ <;>
      simp [List.countP_cons, List.countP_append, hz1, hz2, hz3,
        isFetchIdsEv, isSearchEv]
  · have hnf : needs_refresh (searchLocal O st q k) = false := by
      simpa using hn
    have hr : retrieve O q k st = (.ok (bucketsOf (searchLocal O st q k), st),
        [.evSearch]) := by
      simp [retrieve, hnf]
    have hcond : ¬(searchLocal O st q k = [] ∨ meanSim (searchLocal O st q k) < 7 / 20) := by
      intro hc
      rw [(needs_refresh_iff _).mpr hc] at hnf
      exact Bool.true_eq_false.mp hnf
    rw [hr, if_neg hcond]
    refine ⟨?_, ?_, ?_, ?_, rfl⟩ <;>
      simp [List.countP_cons, isFetchIdsEv, isSearchEv]

/-- Witness for C2: a concrete empty-store `retrieve` run triggers exactly
one refresh and two searches. -/
theorem C2_refresh_policy_witness :
    ((retrieve oracleHappy "x" 2 (⟨[], []⟩ : RState Nat)).2.countP isFetchIdsEv
        = if searchLocal oracleHappy (⟨[], []⟩ : RState Nat) "x" 2 = []
             ∨ meanSim (searchLocal oracleHappy (⟨[], []⟩ : RState Nat) "x" 2) < 7 / 20
          then 1 else 0) ∧
    ((retrieve oracleHappy "x" 2 (⟨[], []⟩ : RState Nat)).2.countP
          (fun e => decide (e = .evFetchIds "x" 3))
        = (retrieve oracleHappy "x" 2 (⟨[], []⟩ : RState Nat)).2.countP isFetchIdsEv) ∧
    (retrieve oracleHappy "x" 2 (⟨[], []⟩ : RState Nat)).2.countP isFetchIdsEv ≤ 1 ∧
    ((retrieve oracleHappy "x" 2 (⟨[], []⟩ : RState Nat)).2.countP isSearchEv
        = 1 + (retrieve oracleHappy "x" 2 (⟨[], []⟩ : RState Nat)).2.countP isFetchIdsEv) ∧
    exOk (retrieve oracleHappy "x" 2 (⟨[], []⟩ : RState Nat)).1 = true :=
  C2_refresh_policy Nat oracleHappy "x" 2 ⟨[], []⟩ (fun _ _ => rfl) (fun _ => rfl)

/-- C1: after a successful build the index holds exactly one vector per
store record — the embedding of the record at the same position — and a
successful refresh ingestion preserves this correspondence: records and
vectors are appended in the same order within the same call, so the index
size always equals the store length. -/
theorem C1_store_index_correspondence :
    (∀ (Vec : Type) (O : Oracles Vec) (term : String) (mr : Nat) (st' : RState Vec)
       (tr : List Event),
        build_pubmed_index O term mr = (.ok (some st'), tr) →
        st'.index.length = st'.chunks.length ∧
        st'.index = st'.chunks.map (fun r => O.embed r.text)) ∧
    (∀ (Vec : Type) (O : Oracles Vec) (q : String) (st st' : RState Vec) (tr : List Event),
        st.index = st.chunks.map (fun r => O.embed r.text) →
        fetch_and_store O q st = (.ok st', tr) →
        st'.index = st'.chunks.map (fun r => O.embed r.text) ∧
        st'.index.length = st'.chunks.length ∧
        ∃ new : List ChunkRec, st'.chunks = st.chunks ++ new ∧
          st'.index = st.index ++ new.map (fun r => O.embed r.text)) := by
  constructor
  · intro Vec O term mr st' tr h
    cases hids : O.fetchIds term mr with
    | error e => simp [build_pubmed_index, hids] at h
    | ok pmids =>
      rcases hbc : buildCollect O pmids with ⟨recs, trc⟩
      simp only [build_pubmed_index, hids, hbc] at h
      split at h
      · simp at h
      · cases h
        exact ⟨by simp, rfl⟩
  · intro Vec O q st st' tr hinv h
    cases hids : O.fetchIds q 3 with
    | error e => simp [fetch_and_store, hids] at h
    | ok pmids =>
      rcases hco : collectRecords O pmids with ⟨recsE, trc⟩
      simp only [fetch_and_store, hids, hco] at h
      cases recsE with
      | error e => simp at h
      | ok newRecs =>
        simp only at h
        split at h
        · cases h
          exact ⟨hinv, by rw [hinv]; simp, [], by simp, by simp⟩
        · cases h
          refine ⟨?_, ?_, newRecs, rfl, rfl⟩
          · show st.index ++ newRecs.map (fun r => O.embed r.text)
                = (st.chunks ++ newRecs).map (fun r => O.embed r.text)
            rw [hinv, List.map_append]
          · show (st.index ++ newRecs.map (fun r => O.embed r.text)).length
                = (st.chunks ++ newRecs).length
            rw [hinv]
            simp

/-- Witness for C1: concrete build and refresh runs produce matching store
and index, vector `i` being the embedding of record `i`. -/
theorem C1_store_index_correspondence_witness :
    ((⟨[⟨"1", some 0, "T. A"⟩], [4]⟩ : RState Nat).index.length
        = (⟨[⟨"1", some 0, "T. A"⟩], [4]⟩ : RState Nat).chunks.length ∧
     (⟨[⟨"1", some 0, "T. A"⟩], [4]⟩ : RState Nat).index
        = (⟨[⟨"1", some 0, "T. A"⟩], [4]⟩ : RState Nat).chunks.map
            (fun r => oracleHappy.embed r.text)) ∧
    ((⟨[⟨"1", none, "T. A"⟩], [4]⟩ : RState Nat).index
        = (⟨[⟨"1", none, "T. A"⟩], [4]⟩ : RState Nat).chunks.map
            (fun r => oracleHappy.embed r.text) ∧
     (⟨[⟨"1", none, "T. A"⟩], [4]⟩ : RState Nat).index.length
        = (⟨[⟨"1", none, "T. A"⟩], [4]⟩ : RState Nat).chunks.length ∧
     ∃ new : List ChunkRec,
       (⟨[⟨"1", none, "T. A"⟩], [4]⟩ : RState Nat).chunks = [] ++ new ∧
       (⟨[⟨"1", none, "T. A"⟩], [4]⟩ : RState Nat).index
          = [] ++ new.map (fun r => oracleHappy.embed r.text)) :=
  ⟨C1_store_index_correspondence.1 Nat oracleHappy "t" 5
      ⟨[⟨"1", some 0, "T. A"⟩], [4]⟩
      [.evFetchIds "t" 5, .evFetchArticle "1"] (by with_unfolding_all rfl),
   C1_store_index_correspondence.2 Nat oracleHappy "x" ⟨[], []⟩
      ⟨[⟨"1", none, "T. A"⟩], [4]⟩
      [.evFetchIds "x" 3, .evFetchArticle "1", .evIndexAdd 1, .evStoreAppend 1]
      rfl (by with_unfolding_all rfl)⟩

/-- C3 counterexample: with an empty local store (so a refresh triggers)
and a collaborator whose single article fetch fails, the failing document is
not skipped: `retrieve` propagates the fetch failure — contradicting the
claim that the only failure `retrieve` may propagate is index-readiness. -/
theorem C3_counterexample :
    (retrieve oracleFetchFail "asthma" 6 (⟨[], []⟩ : RState Nat)).1
      = .error .fetchArticleFailure := by
  with_unfolding_all rfl

/-- C3 (amended): during a refresh inside `retrieve` a failed article fetch
is NOT recovered — `_fetch_and_store` has no try/except, so the error aborts
the refresh and propagates out of `retrieve`; only the offline build step
skips failed article fetches and continues (its sole fetch failure source is
the id search). -/
theorem C3_amended_refresh_errors_propagate :
    (∀ (Vec : Type) (O : Oracles Vec) (q : String) (k : Nat) (st : RState Vec)
       (e : RErr) (tr : List Event),
        needs_refresh (searchLocal O st q k) = true →
        fetch_and_store O q st = (.error e, tr) →
        (retrieve O q k st).1 = .error e) ∧
    (∀ (Vec : Type) (O : Oracles Vec) (term : String) (mr : Nat) (pmids : List String),
        O.fetchIds term mr = .ok pmids →
        exOk (build_pubmed_index O term mr).1 = true) := by
  constructor
  · intro Vec O q k st e tr hn hfs
    simp [retrieve, hn, hfs]
  · intro Vec O term mr pmids hids
    rcases hbc : buildCollect O pmids with ⟨recs, trc⟩
    simp only [build_pubmed_index, hids, hbc]
    split <;> rfl

/-- Witness for the amended C3: a concrete failing refresh propagates its
fetch error out of `retrieve`, while the build step with the same failing
collaborator still succeeds. -/
theorem C3_amended_witness :
    (retrieve oracleFetchFail "flu" 6 (⟨[], []⟩ : RState Nat)).1
        = .error .fetchArticleFailure ∧
    exOk (build_pubmed_index oracleFetchFail "t" 2).1 = true :=
  ⟨C3_amended_refresh_errors_propagate.1 Nat oracleFetchFail "flu" 6 ⟨[], []⟩
      .fetchArticleFailure [.evFetchIds "flu" 3, .evFetchArticle "9"]
      (by with_unfolding_all rfl) (by with_unfolding_all rfl),
   C3_amended_refresh_errors_propagate.2 Nat oracleFetchFail "t" 2 ["9"] rfl⟩

/-- C6 counterexample: a constructed retriever over empty persisted files is
not ready, yet a `retrieve` call on it does not raise any readiness failure —
it completes normally — contradicting "any retrieve call raises
IndexNotReady". -/
theorem C6_counterexample :
    is_ready (⟨[], []⟩ : RState Nat) = false ∧
    exOk (retrieve oracleNoDocs "q" 6 (⟨[], []⟩ : RState Nat)).1 = true :=
  ⟨rfl, by with_unfolding_all rfl⟩

/-- C6 (amended): `is_ready()` is true iff the loaded chunk store is
non-empty (the index object is never `None` after construction); with an
absent index file the construction itself fails, so no retriever instance
exists; and `retrieve` performs no readiness check — instead the public
`answer_pubmed_question` returns a warning string when the retriever is not
ready. -/
theorem C6_amended_readiness :
    (∀ (Vec : Type) (st : RState Vec), is_ready st = true ↔ st.chunks ≠ []) ∧
    (∀ (Vec : Type) (lines : List (Option ChunkRec)),
        initRetriever Vec none lines = .error .readIndexFailure) ∧
    (∀ (Vec : Type) (O : Oracles Vec) (st : RState Vec) (q : String) (k : Nat),
        is_ready st = false →
        (answer_pubmed_question O st q k).1 = .ok (.warning warnMsg, st)) := by
  refine ⟨?_, fun Vec lines => rfl, ?_⟩
  · intro Vec st
    simp [is_ready, List.length_pos]
  · intro Vec O st q k h
    simp [answer_pubmed_question, h]

/-- Witness for the amended C6: on a concrete empty store the public API
returns the warning string instead of raising. -/
theorem C6_amended_witness :
    (answer_pubmed_question oracleNoDocs (⟨[], []⟩ : RState Nat) "q" 5).1
        = .ok (.warning warnMsg, (⟨[], []⟩ : RState Nat)) :=
  C6_amended_readiness.2.2 Nat oracleNoDocs ⟨[], []⟩ "q" 5 rfl

/-- C7 counterexample: chunking the empty cleaned string does not yield zero
chunks. -/
theorem C7_counterexample : chunk_text "" 384 ≠ [] := by decide

/-- C7 (amended): for the empty cleaned string the chunking function yields
exactly one chunk holding the empty string — the loop leaves the trailing
accumulator equal to a single space, which is truthy, so it is stripped and
kept — and no error occurs. -/
theorem C7_amended_empty_text : chunk_text "" 384 = [""] := by decide

/-- With collaborators that do not fail, `retrieve` succeeds and its trace
contains no Bookshelf events. -/
theorem retrieve_ok_shape {Vec : Type} (O : Oracles Vec) (q : String) (k : Nat)
    (st : RState Vec)
    (hIds : ∀ t n, exOk (O.fetchIds t n) = true)
    (hArt : ∀ p, exOk (O.fetchArticle p) = true) :
    ∃ (b : Buckets) (st' : RState Vec) (tr : List Event),
      retrieve O q k st = (.ok (b, st'), tr) ∧
      ∀ e ∈ tr, isBookshelfEv e = false := by
  by_cases hn : needs_refresh (searchLocal O st q k) = true
  · obtain ⟨st', tr', hfs, hev⟩ := fetch_and_store_shape O q st hIds hArt
    have hr : retrieve O q k st
        = (.ok (bucketsOf (searchLocal O st' q k), st'),
           .evSearch :: (.evFetchIds q 3 :: tr') ++ [.evSearch]) := by
      simp [retrieve, hn, hfs]
    refine ⟨_, _, _, hr, ?_⟩
    intro e he
    simp only [List.cons_append, List.mem_cons, List.mem_append,
      List.not_mem_nil, or_false] at he
    rcases he with rfl | rfl | he | rfl
    · rfl
    · rfl
    · exact (hev e he).2.2
    · rfl
  · have hnf : needs_refresh (searchLocal O st q k) = false := by simpa using hn
    have hr : retrieve O q k st
        = (.ok (bucketsOf (searchLocal O st q k), st), [.evSearch]) := by
      simp [retrieve, hnf]
    refine ⟨_, _, _, hr, ?_⟩
    intro e he
    simp only [List.mem_cons, List.not_mem_nil, or_false] at he
    subst he
    rfl

/-- C9 counterexample: a raising Bookshelf lookup does not degrade
gracefully — on a ready store, a definitional query whose Bookshelf request
fails makes the whole `answer_pubmed_question` call propagate the error. -/
theorem C9_counterexample :
    (answer_pubmed_question oracleBookshelfFail stOneRec "what is asthma" 5).1
      = .error .bookshelfFailure := by
  with_unfolding_all rfl

/-- C9 (amended): a query is definitional iff its lower-cased text contains
one of the five markers; when it is (and the retriever is ready, with
healthy fetch collaborators) exactly one Bookshelf request is made, none
otherwise; an empty lookup result degrades gracefully — the passage is
omitted, not an error — but a raising lookup propagates its error out of
`answer_pubmed_question`. -/
theorem C9_amended_definition_lookup :
    (∀ q : String, is_definition_query q = true ↔
        ∃ kw ∈ defQueryKeywords, hasSubL kw.data (pyLower q.data) = true) ∧
    (∀ (Vec : Type) (O : Oracles Vec) (st : RState Vec) (q : String) (k : Nat),
        (∀ t n, exOk (O.fetchIds t n) = true) →
        (∀ p, exOk (O.fetchArticle p) = true) →
        is_ready st = true →
        (answer_pubmed_question O st q k).2.countP isBookshelfEv
          = if is_definition_query q = true then 1 else 0) ∧
    (∀ (Vec : Type) (O : Oracles Vec) (st : RState Vec) (q : String) (k : Nat),
        (∀ t n, exOk (O.fetchIds t n) = true) →
        (∀ p, exOk (O.fetchArticle p) = true) →
        is_ready st = true →
        is_definition_query q = true →
        O.bookshelf q = .ok none →
        ∃ (ctx : List ChunkRec) (pm : List String) (st' : RState Vec),
          (answer_pubmed_question O st q k).1 = .ok (.answer ctx pm none, st')) ∧
    (∀ (Vec : Type) (O : Oracles Vec) (st : RState Vec) (q : String) (k : Nat) (e : RErr),
        (∀ t n, exOk (O.fetchIds t n) = true) →
        (∀ p, exOk (O.fetchArticle p) = true) →
        is_ready st = true →
        is_definition_query q = true →
        O.bookshelf q = .error e →
        (answer_pubmed_question O st q k).1 = .error e) := by
  refine ⟨?_, ?_, ?_, ?_⟩
  · intro q
    simp [is_definition_query, List.any_eq_true]
  · intro Vec O st q k hIds hArt hready
    obtain ⟨b, st', tr, hr, hev⟩ := retrieve_ok_shape O q k st hIds hArt
    have hz : tr.countP isBookshelfEv = 0 :=
      List.countP_eq_zero.mpr (fun e he => by simp [hev e he])
    have hnotready : ¬ is_ready st = false := by simp [hready]
    cases hd : is_definition_query q with
    | true =>
      cases hbs : O.bookshelf q with
      | error e =>
        simp [answer_pubmed_question, hnotready, hr, hd, hbs,
          List.countP_append, List.countP_cons, hz, isBookshelfEv]
      | ok bs =>
        simp [answer_pubmed_question, hnotready, hr, hd, hbs,
          List.countP_append, List.countP_cons, hz, isBookshelfEv]
    | false =>
      simp [answer_pubmed_question, hnotready, hr, hd, hz]
  · intro Vec O st q k hIds hArt hready hdef hbs
    obtain ⟨b, st', tr, hr, _⟩ := retrieve_ok_shape O q k st hIds hArt
    have hnotready : ¬ is_ready st = false := by simp [hready]
    refine ⟨ctxOf b, dedupAux [] ((ctxOf b).map ChunkRec.pmid), st', ?_⟩
    simp [answer_pubmed_question, hnotready, hr, hdef, hbs]
  · intro Vec O st q k e hIds hArt hready hdef hbs
    obtain ⟨b, st', tr, hr, _⟩ := retrieve_ok_shape O q k st hIds hArt
    have hnotready : ¬ is_ready st = false := by simp [hready]
    simp [answer_pubmed_question, hnotready, hr, hdef, hbs]

/-- Witness for the amended C9: on a concrete ready store, a definitional
query makes exactly one Bookshelf request; an empty lookup degrades to an
omitted passage; a raising lookup propagates. -/
theorem C9_amended_definition_lookup_witness :
    ((answer_pubmed_question oracleNoDocs stOneRec "what is flu" 5).2.countP isBookshelfEv
        = if is_definition_query "what is flu" = true then 1 else 0) ∧
    (∃ (ctx : List ChunkRec) (pm : List String) (st' : RState Nat),
        (answer_pubmed_question oracleNoDocs stOneRec "what is flu" 5).1
          = .ok (.answer ctx pm none, st')) ∧
    (answer_pubmed_question oracleBookshelfFail stOneRec "what is flu" 5).1
        = .error .bookshelfFailure :=
  ⟨C9_amended_definition_lookup.2.1 Nat oracleNoDocs stOneRec "what is flu" 5
      (fun _ _ => rfl) (fun _ => rfl) rfl,
   C9_amended_definition_lookup.2.2.1 Nat oracleNoDocs stOneRec "what is flu" 5
      (fun _ _ => rfl) (fun _ => rfl) rfl (by decide) rfl,
   C9_amended_definition_lookup.2.2.2 Nat oracleBookshelfFail stOneRec "what is flu" 5 .bookshelfFailure
      (fun _ _ => rfl) (fun _ => rfl) rfl (by decide) rfl⟩

/-- Splitting the word scanner at an explicit space: the words of
`a ++ ' ' :: b` are the words of `a` (closing any in-progress word) followed
by the words of `b`. -/
theorem pyWordsAux_append_space :
    ∀ (a cur b : List Char),
      pyWordsAux cur (a ++ ' ' :: b) = pyWordsAux cur a ++ pyWordsAux [] b := by
  intro a
  induction a with
  | nil =>
    intro cur b
    simp only [List.nil_append, pyWordsAux]
    by_cases hcur : cur = []
    · simp [hcur]
    · simp [hcur]
  | cons c a ih =>
    intro cur b
    simp only [List.cons_append, pyWordsAux]
    by_cases hws : c.isWhitespace
    · simp only [hws, if_true]
      by_cases hcur : cur = []
      · simp [hcur, ih]
      · simp [hcur, ih]
    · simp [hws, ih]

/-- On all-whitespace input the word scanner only closes the in-progress
word. -/
theorem pyWordsAux_allWs :
    ∀ (w cur : List Char), (∀ c ∈ w, c.isWhitespace) →
      pyWordsAux cur w = if cur = [] then [] else [cur.reverse] := by
  intro w
  induction w with
  | nil => intro cur _; rfl
  | cons c w ih =>
    intro cur hw
    have hc : c.isWhitespace = true := hw c (List.mem_cons_self ..)
    have hw' : ∀ x ∈ w, x.isWhitespace = true :=
      fun x hx => hw x (List.mem_cons_of_mem _ hx)
    simp only [pyWordsAux, hc, if_true]
    by_cases hcur : cur = []
    · simp [hcur, ih [] hw']
    · simp [hcur, ih [] hw']

/-- Trailing whitespace contributes no words. -/
theorem pyWordsAux_append_ws :
    ∀ (a cur w : List Char), (∀ c ∈ w, c.isWhitespace) →
      pyWordsAux cur (a ++ w) = pyWordsAux cur a := by
  intro a
  induction a with
  | nil =>
    intro cur w hw
    rw [List.nil_append, pyWordsAux_allWs w cur hw]
    rfl
  | cons c a ih =>
    intro cur w hw
    simp only [List.cons_append, pyWordsAux]
    by_cases hws : c.isWhitespace
    · simp only [hws, if_true]
      by_cases hcur : cur = []
      · simp [hcur, ih _ _ hw]
      · simp [hcur, ih _ _ hw]
    · simp [hws, ih _ _ hw]

/-- Word count ignores trailing whitespace. -/
theorem wc_append_ws (a w : List Char) (hw : ∀ c ∈ w, c.isWhitespace) :
    wc (a ++ w) = wc a := by
  simp only [wc, pyWords]
  rw [pyWordsAux_append_ws a [] w hw]

/-- Word count ignores a trailing space. -/
theorem wc_append_space (a : List Char) : wc (a ++ [' ']) = wc a :=
  wc_append_ws a [' '] (by intro c hc; simp at hc; subst hc; decide)

/-- Word count ignores leading whitespace. -/
theorem pyWords_dropWhile :
    ∀ l : List Char, pyWordsAux [] (l.dropWhile Char.isWhitespace) = pyWordsAux [] l := by
  intro l
  induction l with
  | nil => rfl
  | cons c l ih =>
    rw [List.dropWhile_cons]
    by_cases hws : c.isWhitespace
    · simp only [hws, if_true]
      rw [ih]
      simp [pyWordsAux, hws]
    · simp [hws]

/-- Stripping outer whitespace does not change the word count. -/
theorem wc_pyStrip : ∀ l : List Char, wc (pyStrip l) = wc l := by
  intro l
  have h1 : wc (l.dropWhile Char.isWhitespace) = wc l := by
    simp only [wc, pyWords]
    rw [pyWords_dropWhile]
  have hdec : (( (l.dropWhile Char.isWhitespace).reverse.dropWhile Char.isWhitespace).reverse
      ++ ((l.dropWhile Char.isWhitespace).reverse.takeWhile Char.isWhitespace).reverse)
      = l.dropWhile Char.isWhitespace := by
    rw [← List.reverse_append, List.takeWhile_append_dropWhile, List.reverse_reverse]
  have hws : ∀ c ∈ ((l.dropWhile Char.isWhitespace).reverse.takeWhile Char.isWhitespace).reverse,
      c.isWhitespace := by
    intro c hc
    rw [List.mem_reverse] at hc
    exact List.mem_takeWhile_imp hc
  calc wc (pyStrip l)
      = wc (((l.dropWhile Char.isWhitespace).reverse.dropWhile Char.isWhitespace).reverse
          ++ ((l.dropWhile Char.isWhitespace).reverse.takeWhile Char.isWhitespace).reverse) :=
        (wc_append_ws _ _ hws).symm
    _ = wc (l.dropWhile Char.isWhitespace) := by rw [hdec]
    _ = wc l := h1

/-- Unfolding `joinSp` on a cons cell. -/
theorem joinSp_cons (s : List Char) (rest : List (List Char)) :
    joinSp (s :: rest) = (s ++ [' ']) ++ joinSp rest := by
  simp [joinSp]

/-- The assembled chunk string is empty exactly when its block is. -/
theorem joinSp_eq_nil : ∀ b : List (List Char), joinSp b = [] ↔ b = [] := by
  intro b
  cases b with
  | nil => simp [joinSp]
  | cons s rest => simp [joinSp_cons]

/-- The assembled chunk string is empty or ends with a space. -/
theorem joinSp_ends : ∀ b : List (List Char), joinSp b = [] ∨ ∃ u, joinSp b = u ++ [' '] := by
  intro b
  induction b with
  | nil => exact Or.inl rfl
  | cons s rest ih =>
    right
    rcases ih with h | ⟨u, h⟩
    · exact ⟨s, by rw [joinSp_cons, h, List.append_nil]⟩
    · exact ⟨s ++ [' '] ++ u, by rw [joinSp_cons, h]; simp [List.append_assoc]⟩

/-- Word count of a block extended by one sentence: exactly the sum — the
loop's admission test `len(chunk.split()) + len(sentence.split())` measures
exactly the word count of the chunk it builds. -/
theorem wc_joinSp_snoc (b : List (List Char)) (s : List Char) :
    wc (joinSp (b ++ [s])) = wc (joinSp b) + wc s := by
  have hj : joinSp (b ++ [s]) = joinSp b ++ (s ++ [' ']) := by
    simp [joinSp, List.map_append]
  rcases joinSp_ends b with h | ⟨u, h⟩
  · rw [hj, h, List.nil_append, wc_append_space]
    have h0 : wc ([] : List Char) = 0 := rfl
    rw [h0]
    omega
  · rw [hj, h]
    have hsplit : (u ++ [' ']) ++ (s ++ [' ']) = u ++ ' ' :: (s ++ [' ']) := by
      simp
    rw [hsplit]
    have h1 : wc (u ++ ' ' :: (s ++ [' '])) = wc u + wc (s ++ [' ']) := by
      simp only [wc, pyWords]
      rw [pyWordsAux_append_space]
      simp
    rw [h1, wc_append_space s, wc_append_space u]

/-- The chunking loop is the block loop in disguise: when the accumulated
chunk string is assembled from whole sentences, every step keeps it so. -/
theorem chunkLoop_blockLoop (mt : Nat) :
    ∀ (sents : List (List Char)) (acc : List (List (List Char))) (cur : List (List Char)),
      chunkLoop mt (acc.map (fun b => pyStrip (joinSp b))) (joinSp cur) sents
        = (blockLoop mt acc cur sents).map (fun b => pyStrip (joinSp b)) := by
  intro sents
  induction sents with
  | nil =>
    intro acc cur
    simp only [chunkLoop, blockLoop]
    by_cases h : joinSp cur = []
    · simp [h]
    · simp [h]
  | cons s rest ih =>
    intro acc cur
    simp only [chunkLoop, blockLoop]
    by_cases hc : wc (joinSp cur) + wc s ≤ mt
    · rw [if_pos hc, if_pos hc]
      have hj : joinSp cur ++ s ++ [' '] = joinSp (cur ++ [s]) := by
        simp [joinSp, List.map_append, List.append_assoc]
      rw [hj, ih]
    · rw [if_neg hc, if_neg hc]
      have h1 : acc.map (fun b => pyStrip (joinSp b)) ++ [pyStrip (joinSp cur)]
          = (acc ++ [cur]).map (fun b => pyStrip (joinSp b)) := by
        simp
      have h2 : s ++ [' '] = joinSp [s] := by
        simp [joinSp]
      rw [h1, h2, ih]

/-- The blocks produced by the block loop partition the sentence list: no
sentence is dropped, none duplicated, order preserved. -/
theorem blockLoop_flatten (mt : Nat) :
    ∀ (sents : List (List Char)) (acc : List (List (List Char))) (cur : List (List Char)),
      (blockLoop mt acc cur sents).flatten = acc.flatten ++ cur ++ sents := by
  intro sents
  induction sents with
  | nil =>
    intro acc cur
    simp only [blockLoop]
    by_cases h : joinSp cur = []
    · rw [if_neg (not_not_intro h)]
      have hcur : cur = [] := (joinSp_eq_nil cur).mp h
      simp [hcur]
    · rw [if_pos h]
      simp
  | cons s rest ih =>
    intro acc cur
    simp only [blockLoop]
    by_cases hc : wc (joinSp cur) + wc s ≤ mt
    · rw [if_pos hc, ih]
      simp
    · rw [if_neg hc, ih]
      simp

/-- Every block the block loop emits respects the budget, except a
singleton block whose single sentence exceeds it on its own. -/
theorem blockLoop_bound (mt : Nat) :
    ∀ (sents : List (List Char)) (acc : List (List (List Char))) (cur : List (List Char)),
      (∀ b ∈ acc, wc (joinSp b) ≤ mt ∨ ∃ s, b = [s] ∧ mt < wc s) →
      (wc (joinSp cur) ≤ mt ∨ ∃ s, cur = [s] ∧ mt < wc s) →
      ∀ b ∈ blockLoop mt acc cur sents,
        wc (joinSp b) ≤ mt ∨ ∃ s, b = [s] ∧ mt < wc s := by
  intro sents
  induction sents with
  | nil =>
    intro acc cur hacc hcur b hb
    simp only [blockLoop] at hb
    split at hb
    · rcases List.mem_append.mp hb with h | h
      · exact hacc b h
      · simp only [List.mem_cons, List.not_mem_nil, or_false] at h
        subst h
        exact hcur
    · exact hacc b hb
  | cons s rest ih =>
    intro acc cur hacc hcur b hb
    simp only [blockLoop] at hb
    split at hb
    · rename_i hc
      refine ih _ _ hacc ?_ b hb
      left
      rw [wc_joinSp_snoc]
      exact hc
    · refine ih _ _ ?_ ?_ b hb
      · intro b' hb'
        rcases List.mem_append.mp hb' with h | h
        · exact hacc b' h
        · simp only [List.mem_cons, List.not_mem_nil, or_false] at h
          subst h
          exact hcur
      · have hwcs : wc (joinSp [s]) = wc s := by
          have h2 : joinSp [s] = s ++ [' '] := by simp [joinSp]
          rw [h2, wc_append_space]
        by_cases hlt : wc s ≤ mt
        · left
          rw [hwcs]
          exact hlt
        · right
          exact ⟨s, rfl, by omega⟩

/-- C8: chunking splits only at sentence boundaries: the chunks are exactly
the renderings of a consecutive partition of the sentence list (no sentence
dropped, none split, order preserved), and a chunk's whitespace-delimited
word count exceeds the budget only when it consists of a single sentence
whose own word count exceeds the budget. -/
theorem C8_chunking_sentence_boundaries :
    ∀ (text : String) (mt : Nat),
      ∃ blocks : List (List (List Char)),
        blocks.flatten = sentSplitL text.data ∧
        chunk_text text mt = blocks.map (fun b => String.mk (pyStrip (joinSp b))) ∧
        (∀ b ∈ blocks, wc (joinSp b) ≤ mt ∨ ∃ s, b = [s] ∧ mt < wc s) ∧
        (∀ c ∈ chunk_text text mt, mt < wc c.data →
          ∃ s ∈ sentSplitL text.data, wc s = wc c.data ∧ mt < wc s) := by
  intro text mt
  have hflat : (blockLoop mt [] [] (sentSplitL text.data)).flatten
      = sentSplitL text.data := by
    rw [blockLoop_flatten]
    simp
  have hcb := chunkLoop_blockLoop mt (sentSplitL text.data) [] []
  simp only [List.map_nil] at hcb
  have hjn : joinSp ([] : List (List Char)) = [] := rfl
  rw [hjn] at hcb
  have hmap : chunk_text text mt
      = (blockLoop mt [] [] (sentSplitL text.data)).map
          (fun b => String.mk (pyStrip (joinSp b))) := by
    rw [chunk_text, hcb, List.map_map]
    rfl
  have hbound : ∀ b ∈ blockLoop mt [] [] (sentSplitL text.data),
      wc (joinSp b) ≤ mt ∨ ∃ s, b = [s] ∧ mt < wc s := by
    refine blockLoop_bound mt (sentSplitL text.data) [] [] ?_ ?_
    · intro b hb
      exact absurd hb (List.not_mem_nil b)
    · left
      rw [hjn]
      have h0 : wc ([] : List Char) = 0 := rfl
      rw [h0]
      exact Nat.zero_le mt
  refine ⟨blockLoop mt [] [] (sentSplitL text.data), hflat, hmap, hbound, ?_⟩
  intro c hc hlt
  rw [hmap] at hc
  obtain ⟨b, hb, rfl⟩ := List.mem_map.mp hc
  have hdata : (String.mk (pyStrip (joinSp b))).data = pyStrip (joinSp b) := rfl
  rw [hdata] at hlt ⊢
  rw [wc_pyStrip] at hlt ⊢
  rcases hbound b hb with h | ⟨s, rfl, hs⟩
  · omega
  · have hwcs : wc (joinSp [s]) = wc s := by
      have h2 : joinSp [s] = s ++ [' '] := by simp [joinSp]
      rw [h2, wc_append_space]
    refine ⟨s, ?_, ?_, hs⟩
    · rw [← hflat]
      exact List.mem_flatten.mpr ⟨[s], hb, List.mem_cons_self ..⟩
    · rw [hwcs]

/-- Witness for C8: the sentence-partition decomposition at a concrete text
and budget. -/
theorem C8_chunking_sentence_boundaries_witness :
    ∃ blocks : List (List (List Char)),
      blocks.flatten = sentSplitL "One two three four. Five six.".data ∧
      chunk_text "One two three four. Five six." 4
          = blocks.map (fun b => String.mk (pyStrip (joinSp b))) ∧
      (∀ b ∈ blocks, wc (joinSp b) ≤ 4 ∨ ∃ s, b = [s] ∧ 4 < wc s) ∧
      (∀ c ∈ chunk_text "One two three four. Five six." 4, 4 < wc c.data →
        ∃ s ∈ sentSplitL "One two three four. Five six.".data,
          wc s = wc c.data ∧ 4 < wc s) :=
  C8_chunking_sentence_boundaries "One two three four. Five six." 4

end MedFusion
